import Mathlib

/-!
Shallow embedding of the HTML document builder in src/document.h
(namespace htmlgen, class Document with nested classes Attribute,
TextNode, Element).

The C++ GetHTML methods all follow an out-parameter convention: they
append text to a caller-supplied string.  We model each such method as
a function taking the node and the current value of the out string and
returning the new value of the out string.
-/

namespace htmlgen

/-- An attribute of an element: Document::Attribute stores a name and a
value, both immutable strings. -/
structure Attribute where
  name : String
  value : String
deriving DecidableEq, Repr

/-- Model of std::string::find applied to the double-quote character:
index of the first occurrence of a double quote in the character list,
or none (std::string::npos in the C++ code) when no quote occurs. -/
def findQuote : List Char → Option Nat
  | [] => none
  | c :: cs => if c = '"' then some 0 else (findQuote cs).map (fun i => i + 1)

/-- The six characters of the entity text that the escaping loop inserts
for each double quote. -/
def entityQuot : List Char := "&quot;".data

/-- Model of escaped.replace(quote_pos, 1, "&quot;", 6): replace the one
character at index i by the six-character entity text. -/
def replaceAt (s : List Char) (i : Nat) : List Char :=
  s.take i ++ entityQuot ++ s.drop (i + 1)

/-- The number of double-quote characters in a character list; this is
the termination measure of the escaping loop. -/
def countQuotes (s : List Char) : Nat := s.count '"'

/-- Model of the do/while escaping loop in Document::Attribute::GetHTML:
repeatedly find the first double quote and replace it by the entity
text, until no double quote remains.  Terminates because each
replacement strictly decreases the number of double quotes (proved
inline in the termination argument). -/
def escapeLoop (s : List Char) : List Char :=
  match hf : findQuote s with
  | none => s
  | some i => escapeLoop (replaceAt s i)
termination_by countQuotes s
decreasing_by
  have key : ∀ t : List Char, ∀ j : Nat, findQuote t = some j →
      countQuotes (replaceAt t j) + 1 = countQuotes t := by
    intro t
    induction t with
    | nil => intro j hj; simp [findQuote] at hj
    | cons c cs ih =>
      intro j hj
      by_cases hc : c = '"'
      · simp [findQuote, hc] at hj
        subst hj
        have he : countQuotes entityQuot = 0 := by decide
        simp [countQuotes] at he
        simp [replaceAt, countQuotes, List.count_cons, List.count_append, hc, he]
      · simp [findQuote, hc] at hj
        obtain ⟨m, hm, hmj⟩ := hj
        subst hmj
        have hrepl : replaceAt (c :: cs) (m + 1) = c :: replaceAt cs m := by
          simp [replaceAt, List.take_succ_cons, List.drop_succ_cons]
        rw [hrepl]
        have ihm := ih m hm
        simp [countQuotes, List.count_cons, hc] at ihm ⊢
        omega
  have := key s i hf
  omega

/-- The specification's escaped function, written from the spec text:
replace every literal double-quote character in the value with the
entity &quot; and change no other character. -/
def escapedSpec : List Char → List Char
  | [] => []
  | c :: cs => (if c = '"' then entityQuot else [c]) ++ escapedSpec cs

/-- Model of Document::Attribute::GetHTML(out): append the name, then
an equals sign and an opening quote, then the value (escaped through the
loop when it contains a double quote, verbatim otherwise), then a
closing quote. -/
def Attribute.GetHTML (a : Attribute) (out : String) : String :=
  let out1 := (out ++ a.name) ++ "=\""
  let out2 :=
    match findQuote a.value.data with
    | some _ => out1 ++ String.mk (escapeLoop a.value.data)
    | none => out1 ++ a.value
  out2 ++ "\""

/-- A node of the document tree: Document::Element (a tag name, an
ordered attribute list and an ordered child list) or Document::TextNode
(a raw string value). -/
inductive Node where
  | element (name : String) (attributes : List Attribute) (children : List Node) : Node
  | text (value : String) : Node
deriving Repr

/-- Model of the attribute loop in Document::Element::GetHTML: for each
attribute in order, append one space and then the attribute's HTML. -/
def appendAttributes : List Attribute → String → String
  | [], out => out
  | a :: rest, out => appendAttributes rest (Attribute.GetHTML a (out ++ " "))

mutual

/-- Model of Document::Element::GetHTML and Document::TextNode::GetHTML:
a text node appends its value verbatim; an element appends the opening
angle bracket and name, its attributes, and then either the children
wrapped in matching tags (when there is at least one child) or the
self-closing marker (when there are none). -/
def Node.GetHTML : Node → String → String
  | Node.text v, out => out ++ v
  | Node.element name attrs children, out =>
    let o := appendAttributes attrs ((out ++ "<") ++ name)
    if children.length > 0 then
      ((Node.GetHTMLList children (o ++ ">")) ++ "</") ++ name ++ ">"
    else
      o ++ " />"

/-- Model of the child loop in Document::Element::GetHTML: render each
child in order into the out string. -/
def Node.GetHTMLList : List Node → String → String
  | [], out => out
  | c :: cs, out => Node.GetHTMLList cs (Node.GetHTML c out)

end

/-- Model of class Document: it owns exactly one root element.  The
Document constructor initializes the root to Element("html") with no
attributes and no children. -/
structure Document where
  root : Node

/-- Model of the Document() constructor: root_(Element("html")). -/
def Document.new : Document :=
  Document.mk (Node.element "html" [] [])

/-- Model of Document::GetHTML(out): append the doctype line, then the
root element's HTML, then a newline. -/
def Document.GetHTML (d : Document) (out : String) : String :=
  (Node.GetHTML d.root (out ++ "<!DOCTYPE html>\n")) ++ "\n"

/-- The spec's Attribute.render(): GetHTML into an empty out string. -/
def Attribute.render (a : Attribute) : String := Attribute.GetHTML a ""

/-- The spec's node render(): GetHTML into an empty out string. -/
def Node.render (n : Node) : String := Node.GetHTML n ""

/-- The spec's Document.render(): GetHTML into an empty out string. -/
def Document.render (d : Document) : String := Document.GetHTML d ""

/-- Model of Document::Element::AddAttribute: push a new Attribute
(name, value) at the back of the attribute list.  On a text node (which
has no such member function in the C++ code) it is the identity. -/
def Node.AddAttribute : Node → String → String → Node
  | Node.element nm attrs cs, n, v =>
    Node.element nm (attrs ++ [Attribute.mk n v]) cs
  | Node.text t, _, _ => Node.text t

/-- Model of Document::Element::AddChild: push a new empty Element with
the given name at the back of the child list (the C++ method returns a
pointer to the new child; here the updated parent is returned). -/
def Node.AddChild : Node → String → Node
  | Node.element nm attrs cs, name =>
    Node.element nm attrs (cs ++ [Node.element name [] []])
  | Node.text t, _ => Node.text t

/-- Model of Document::Element::AddTextChild: push a new TextNode with
the given value at the back of the child list. -/
def Node.AddTextChild : Node → String → Node
  | Node.element nm attrs cs, value =>
    Node.element nm attrs (cs ++ [Node.text value])
  | Node.text t, _ => Node.text t

/-- Concatenation of a list of strings, used to state that renderings
of attributes and children are emitted one after the other in order. -/
def concatStrings : List String → String
  | [] => ""
  | s :: ss => s ++ concatStrings ss

/-- One step of tree building on an element: either AddChild with a tag
name or AddTextChild with a text value. -/
inductive ChildAdd where
  | child (name : String) : ChildAdd
  | textChild (value : String) : ChildAdd
deriving DecidableEq, Repr

/-- The node that one building step appends to the child list. -/
def addedNode : ChildAdd → Node
  | ChildAdd.child nm => Node.element nm [] []
  | ChildAdd.textChild v => Node.text v

/-- Apply a sequence of AddChild / AddTextChild calls to a node, in
order. -/
def applyAdds (p : Node) (adds : List ChildAdd) : Node :=
  adds.foldl
    (fun n a =>
      match a with
      | ChildAdd.child nm => Node.AddChild n nm
      | ChildAdd.textChild v => Node.AddTextChild n v)
    p

/-- The example document of the doc comment in src/document.h: body
with an anchor (href attribute and a text child) and a paragraph (a
text child), built with the Add operations. -/
def exampleDoc : Document :=
  let a0 := Node.element "a" [] []
  let a1 := Node.AddAttribute a0 "href" "http://unlicense.org/"
  let a2 := Node.AddTextChild a1 "Click on me!"
  let p0 := Node.element "p" [] []
  let p1 := Node.AddTextChild p0 "Hello world!"
  let body := Node.element "body" [] [a2, p1]
  Document.mk (Node.element "html" [] [body])

/-- Calling Document::GetHTML on a program state made of the document
and the out string: the method is const, so the document component is
unchanged and only the out string grows. -/
def renderState : Document × String → Document × String :=
  fun st => (st.1, Document.GetHTML st.1 st.2)

theorem countQuotes_entityQuot : countQuotes entityQuot = 0 := by decide

theorem countQuotes_replaceAt (s : List Char) (i : Nat)
    (h : findQuote s = some i) :
    countQuotes (replaceAt s i) + 1 = countQuotes s := by
  induction s generalizing i with
  | nil => simp [findQuote] at h
  | cons c cs ih =>
    by_cases hc : c = '"'
    · simp [findQuote, hc] at h
      subst h
      have he : countQuotes entityQuot = 0 := countQuotes_entityQuot
      simp [countQuotes] at he
      simp [replaceAt, countQuotes, List.count_cons, List.count_append, hc, he]
    · simp [findQuote, hc] at h
      obtain ⟨j, hj, hji⟩ := h
      subst hji
      have hrepl : replaceAt (c :: cs) (j + 1) = c :: replaceAt cs j := by
        simp [replaceAt, List.take_succ_cons, List.drop_succ_cons]
      rw [hrepl]
      have ihj := ih j hj
      simp [countQuotes, List.count_cons, hc] at ihj ⊢
      omega

theorem escapeLoop_none {s : List Char} (h : findQuote s = none) :
    escapeLoop s = s := by
  rw [escapeLoop.eq_def]
  split
  · rfl
  · rename_i i hi
    rw [h] at hi
    cases hi

theorem escapeLoop_some {s : List Char} {i : Nat} (h : findQuote s = some i) :
    escapeLoop s = escapeLoop (replaceAt s i) := by
  rw [escapeLoop.eq_def]
  split
  · rename_i hn
    rw [h] at hn
    cases hn
  · rename_i j hj
    rw [h] at hj
    cases hj
    rfl

theorem findQuote_none_iff {s : List Char} :
    findQuote s = none ↔ countQuotes s = 0 := by
  induction s with
  | nil => simp [findQuote, countQuotes]
  | cons c cs ih =>
    by_cases hc : c = '"'
    · simp [findQuote, hc, countQuotes, List.count_cons]
    · simp [findQuote, hc, countQuotes, List.count_cons] at ih ⊢
      simpa [countQuotes] using ih

theorem escapedSpec_of_no_quote {s : List Char} (h : findQuote s = none) :
    escapedSpec s = s := by
  induction s with
  | nil => rfl
  | cons c cs ih =>
    by_cases hc : c = '"'
    · simp [findQuote, hc] at h
    · simp [findQuote, hc] at h
      simp [escapedSpec, hc, ih h]

theorem escapedSpec_append_of_no_quote {p : List Char} (q : List Char)
    (h : findQuote p = none) :
    escapedSpec (p ++ q) = p ++ escapedSpec q := by
  induction p with
  | nil => rfl
  | cons c cs ih =>
    by_cases hc : c = '"'
    · simp [findQuote, hc] at h
    · simp [findQuote, hc] at h
      simp [escapedSpec, hc, ih h]

theorem findQuote_entityQuot : findQuote entityQuot = none := by decide

theorem escapedSpec_replaceAt {s : List Char} {i : Nat}
    (h : findQuote s = some i) :
    escapedSpec (replaceAt s i) = escapedSpec s := by
  induction s generalizing i with
  | nil => simp [findQuote] at h
  | cons c cs ih =>
    by_cases hc : c = '"'
    · simp [findQuote, hc] at h
      subst h
      simp only [replaceAt, List.take_zero, List.drop_succ_cons, List.drop_zero,
        List.nil_append]
      rw [escapedSpec_append_of_no_quote cs findQuote_entityQuot]
      simp [escapedSpec, hc]
    · simp [findQuote, hc] at h
      obtain ⟨j, hj, hji⟩ := h
      subst hji
      have hrepl : replaceAt (c :: cs) (j + 1) = c :: replaceAt cs j := by
        simp [replaceAt, List.take_succ_cons, List.drop_succ_cons]
      rw [hrepl]
      simp [escapedSpec, hc, ih hj]

theorem escapeLoop_eq_escapedSpec (s : List Char) :
    escapeLoop s = escapedSpec s := by
  have key : ∀ n s, countQuotes s ≤ n → escapeLoop s = escapedSpec s := by
    intro n
    induction n with
    | zero =>
      intro s hs
      have h0 : countQuotes s = 0 := Nat.le_zero.mp hs
      have hn : findQuote s = none := findQuote_none_iff.mpr h0
      rw [escapeLoop_none hn, escapedSpec_of_no_quote hn]
    | succ n ih =>
      intro s hs
      cases hf : findQuote s with
      | none => rw [escapeLoop_none hf, escapedSpec_of_no_quote hf]
      | some i =>
        rw [escapeLoop_some hf]
        have hc := countQuotes_replaceAt s i hf
        have := ih (replaceAt s i) (by omega)
        rw [this, escapedSpec_replaceAt hf]
  exact key (countQuotes s) s (Nat.le_refl _)

theorem attributeGetHTML_hom (a : Attribute) (out : String) :
    Attribute.GetHTML a out = out ++ Attribute.render a := by
  unfold Attribute.render Attribute.GetHTML
  cases hf : findQuote a.value.data <;>
    simp [hf, String.append_assoc, String.empty_append]

theorem appendAttributes_hom (attrs : List Attribute) (out : String) :
    appendAttributes attrs out =
      out ++ concatStrings (attrs.map (fun a => " " ++ Attribute.render a)) := by
  induction attrs generalizing out with
  | nil => simp [appendAttributes, concatStrings]
  | cons a rest ih =>
    simp only [appendAttributes, List.map_cons, concatStrings]
    rw [ih, attributeGetHTML_hom]
    simp [String.append_assoc]

theorem GetHTML_hom_aux (k : Nat) :
    (∀ n : Node, sizeOf n ≤ k → ∀ out : String,
      Node.GetHTML n out = out ++ Node.GetHTML n "") ∧
    (∀ cs : List Node, sizeOf cs ≤ k → ∀ out : String,
      Node.GetHTMLList cs out = out ++ Node.GetHTMLList cs "") := by
  induction k with
  | zero =>
    constructor
    · intro n hn
      exfalso
      cases n <;> simp_arith at hn
    · intro cs hcs
      exfalso
      cases cs <;> simp_arith at hcs
  | succ k ih =>
    obtain ⟨ihn, ihl⟩ := ih
    constructor
    · intro n hn out
      cases n with
      | text v => simp [Node.GetHTML, String.empty_append]
      | element name attrs cs =>
        have hcs : sizeOf cs ≤ k := by
          simp_arith at hn
          omega
        simp only [Node.GetHTML]
        by_cases hlen : cs.length > 0
        · simp only [hlen, if_pos]
          rw [appendAttributes_hom, appendAttributes_hom]
          have hid := ihl cs hcs
          set L := Node.GetHTMLList cs "" with hL
          rw [hid, hid]
          simp [String.append_assoc, String.empty_append]
        · simp only [hlen, if_neg, if_false]
          rw [appendAttributes_hom, appendAttributes_hom]
          simp [String.append_assoc, String.empty_append]
    · intro cs hcs out
      cases cs with
      | nil => simp [Node.GetHTMLList, String.append_empty]
      | cons c rest =>
        have hc : sizeOf c ≤ k := by
          simp_arith at hcs
          omega
        have hrest : sizeOf rest ≤ k := by
          simp_arith at hcs
          omega
        simp only [Node.GetHTMLList]
        have hidc := ihn c hc
        have hidr := ihl rest hrest
        set Lc := Node.GetHTML c "" with hLc
        set Lr := Node.GetHTMLList rest "" with hLr
        rw [hidc, hidr, hidr]
        simp [String.append_assoc, String.empty_append]

theorem nodeGetHTML_hom (n : Node) (out : String) :
    Node.GetHTML n out = out ++ Node.render n :=
  (GetHTML_hom_aux (sizeOf n)).1 n (Nat.le_refl _) out

theorem nodeGetHTMLList_hom (cs : List Node) (out : String) :
    Node.GetHTMLList cs out = out ++ Node.GetHTMLList cs "" :=
  (GetHTML_hom_aux (sizeOf cs)).2 cs (Nat.le_refl _) out

theorem nodeGetHTMLList_concat (cs : List Node) (out : String) :
    Node.GetHTMLList cs out = out ++ concatStrings (cs.map Node.render) := by
  induction cs generalizing out with
  | nil => simp [Node.GetHTMLList, concatStrings, String.append_empty]
  | cons c rest ih =>
    simp only [Node.GetHTMLList, List.map_cons, concatStrings]
    rw [ih, nodeGetHTML_hom]
    simp [String.append_assoc]

theorem documentGetHTML_hom (d : Document) (out : String) :
    Document.GetHTML d out = out ++ Document.render d := by
  unfold Document.render Document.GetHTML
  rw [nodeGetHTML_hom, nodeGetHTML_hom d.root ("" ++ "<!DOCTYPE html>\n")]
  simp [String.append_assoc, String.empty_append]

theorem render_element_cases (name : String) (attrs : List Attribute)
    (cs : List Node) :
    Node.render (Node.element name attrs cs) =
      if 0 < cs.length then
        (("<" ++ name ++ concatStrings (attrs.map (fun a => " " ++ Attribute.render a))) ++ ">")
          ++ concatStrings (cs.map Node.render) ++ (("</" ++ name) ++ ">")
      else
        ("<" ++ name ++ concatStrings (attrs.map (fun a => " " ++ Attribute.render a))) ++ " />" := by
  conv_lhs => unfold Node.render
  simp only [Node.GetHTML]
  by_cases hlen : 0 < cs.length
  · simp only [hlen, if_pos]
    rw [appendAttributes_hom, nodeGetHTMLList_concat]
    simp [String.append_assoc, String.empty_append]
  · simp only [hlen, if_neg, if_false]
    rw [appendAttributes_hom]
    simp [String.append_assoc, String.empty_append]

theorem applyAdds_element (adds : List ChildAdd) (nm : String)
    (attrs : List Attribute) (cs : List Node) :
    applyAdds (Node.element nm attrs cs) adds =
      Node.element nm attrs (cs ++ adds.map addedNode) := by
  induction adds generalizing cs with
  | nil => simp [applyAdds]
  | cons a rest ih =>
    cases a with
    | child n =>
      show applyAdds (Node.element nm attrs (cs ++ [Node.element n [] []])) rest = _
      rw [ih]
      simp [addedNode]
    | textChild v =>
      show applyAdds (Node.element nm attrs (cs ++ [Node.text v])) rest = _
      rw [ih]
      simp [addedNode]

/-- C1: rendering an attribute with name n and value v produces
n ++ "=\"" ++ escaped(v) ++ "\"", where escaped replaces every literal
double-quote character of v by the six-character entity &quot; and
changes no other character; a value with no double quote (in particular
one with ampersands or angle brackets) is emitted unchanged. -/
theorem attribute_render_formula (a : Attribute) :
    Attribute.render a =
      ((a.name ++ "=\"") ++ String.mk (escapedSpec a.value.data)) ++ "\"" ∧
    (countQuotes a.value.data = 0 →
      Attribute.render a = ((a.name ++ "=\"") ++ a.value) ++ "\"") := by
  have hmk : String.mk a.value.data = a.value := rfl
  constructor
  · unfold Attribute.render Attribute.GetHTML
    cases hf : findQuote a.value.data with
    | none =>
      have hs : escapedSpec a.value.data = a.value.data := escapedSpec_of_no_quote hf
      simp [hf, hs, hmk, String.append_assoc, String.empty_append]
    | some i =>
      simp [hf, escapeLoop_eq_escapedSpec, String.append_assoc, String.empty_append]
  · intro h0
    have hf : findQuote a.value.data = none := findQuote_none_iff.mpr h0
    unfold Attribute.render Attribute.GetHTML
    simp [hf, String.append_assoc, String.empty_append]

theorem attribute_render_formula_witness :
    countQuotes (Attribute.mk "x" "a&b").value.data = 0 ∧
    Attribute.render (Attribute.mk "x" "a&b") = (("x" ++ "=\"") ++ "a&b") ++ "\"" :=
  ⟨by decide, (attribute_render_formula (Attribute.mk "x" "a&b")).2 (by decide)⟩

/-- C2: an element renders in the self-closing form exactly when it has
zero children: with zero children it emits the opening bracket, the
name, one space plus rendered attribute per attribute in insertion
order, and then " />"; with at least one child it emits ">", the
concatenated child renderings in insertion order, and then the matching
close tag. -/
theorem element_selfclosing_iff_no_children (name : String)
    (attrs : List Attribute) (cs : List Node) :
    Node.render (Node.element name attrs cs) =
      if cs.length = 0 then
        ("<" ++ name ++ concatStrings (attrs.map (fun a => " " ++ Attribute.render a))) ++ " />"
      else
        (("<" ++ name ++ concatStrings (attrs.map (fun a => " " ++ Attribute.render a))) ++ ">")
          ++ concatStrings (cs.map Node.render) ++ (("</" ++ name) ++ ">") := by
  rw [render_element_cases]
  by_cases h : cs.length = 0
  · simp [h]
  · have hpos : 0 < cs.length := Nat.pos_of_ne_zero h
    simp [h, hpos]

/-- C3: Document.render() returns "<!DOCTYPE html>\n" followed by the
rendered root element followed by a trailing "\n"; a freshly
constructed document renders exactly as "<!DOCTYPE html>\n<html />\n". -/
theorem document_render_formula :
    (∀ d : Document,
      Document.render d = (("<!DOCTYPE html>\n" ++ Node.render d.root) ++ "\n")) ∧
    Document.render Document.new = "<!DOCTYPE html>\n<html />\n" := by
  constructor
  · intro d
    unfold Document.render Document.GetHTML
    rw [nodeGetHTML_hom]
    simp [String.append_assoc, String.empty_append]
  · decide

/-- C4: children added through AddChild and AddTextChild end up at the
back of the child list in call order, and rendering the element emits
the children's renderings concatenated in exactly that order, with no
sorting, deduplication or injected whitespace; attributes are likewise
emitted in insertion order. -/
theorem children_rendered_in_insertion_order (name : String)
    (attrs : List Attribute) (cs : List Node) (adds : List ChildAdd)
    (h : adds ≠ []) :
    applyAdds (Node.element name attrs cs) adds =
      Node.element name attrs (cs ++ adds.map addedNode) ∧
    Node.render (applyAdds (Node.element name attrs cs) adds) =
      (("<" ++ name ++ concatStrings (attrs.map (fun a => " " ++ Attribute.render a))) ++ ">")
        ++ concatStrings ((cs ++ adds.map addedNode).map Node.render)
        ++ (("</" ++ name) ++ ">") := by
  have happ := applyAdds_element adds name attrs cs
  have hpos : 0 < (cs ++ adds.map addedNode).length := by
    cases adds with
    | nil => exact absurd rfl h
    | cons a rest => simp
  exact ⟨happ, by rw [happ, render_element_cases, if_pos hpos]⟩

theorem children_rendered_in_insertion_order_witness :
    ([ChildAdd.textChild "x", ChildAdd.child "p"] : List ChildAdd) ≠ [] ∧
    Node.render (applyAdds (Node.element "d" [] [])
        [ChildAdd.textChild "x", ChildAdd.child "p"]) =
      (("<" ++ "d" ++ concatStrings (([] : List Attribute).map (fun a => " " ++ Attribute.render a))) ++ ">")
        ++ concatStrings ((([] : List Node) ++ ([ChildAdd.textChild "x", ChildAdd.child "p"].map addedNode)).map Node.render)
        ++ (("</" ++ "d") ++ ">") :=
  ⟨by decide,
    (children_rendered_in_insertion_order "d" [] []
      [ChildAdd.textChild "x", ChildAdd.child "p"] (by decide)).2⟩

/-- C5: a text node renders as its stored string value verbatim: no
escaping or transformation of any character is performed. -/
theorem textnode_render_verbatim (v : String) :
    Node.render (Node.text v) = v := by
  show Node.GetHTML (Node.text v) "" = v
  simp [Node.GetHTML, String.empty_append]

/-- C6: the end-to-end example document (body containing an anchor with
an href attribute and a text child, then a paragraph with a text child)
renders to exactly the expected string. -/
theorem example_document_renders :
    Document.render exampleDoc =
      "<!DOCTYPE html>\n<html><body><a href=\"http://unlicense.org/\">Click on me!</a><p>Hello world!</p></body></html>\n" := by
  decide

/-- C7: rendering is pure and deterministic: it leaves the document
tree unchanged, and calling GetHTML twice in a row appends the same
rendered string twice. -/
theorem render_pure_and_frame (st : Document × String) :
    (renderState st).1 = st.1 ∧
    (renderState st).2 = st.2 ++ Document.render st.1 ∧
    (renderState (renderState st)).2 =
      (st.2 ++ Document.render st.1) ++ Document.render st.1 := by
  refine ⟨rfl, documentGetHTML_hom st.1 st.2, ?_⟩
  show Document.GetHTML st.1 (Document.GetHTML st.1 st.2) = _
  rw [documentGetHTML_hom, documentGetHTML_hom]

/-- C8: AddAttribute(name, value) on an element appends exactly one new
Attribute(name, value) at the end of the attribute list, always
succeeds, and leaves the tag name, the child list and all previously
added attributes unchanged; duplicate names are kept. -/
theorem addAttribute_appends (nm n v : String) (attrs : List Attribute)
    (cs : List Node) :
    Node.AddAttribute (Node.element nm attrs cs) n v =
      Node.element nm (attrs ++ [Attribute.mk n v]) cs := rfl

/-- C9: every GetHTML appends to its out parameter rather than
replacing it: the result is the prior content followed by the rendered
form, render() is GetHTML on the empty string, and calling GetHTML
twice leaves two concatenated copies of the rendering. -/
theorem gethtml_appends_to_out (d : Document) (n : Node) (a : Attribute)
    (s : String) :
    Document.GetHTML d s = s ++ Document.render d ∧
    Node.GetHTML n s = s ++ Node.render n ∧
    Attribute.GetHTML a s = s ++ Attribute.render a ∧
    Document.GetHTML d (Document.GetHTML d s) =
      (s ++ Document.render d) ++ Document.render d := by
  refine ⟨documentGetHTML_hom d s, nodeGetHTML_hom n s,
    attributeGetHTML_hom a s, ?_⟩
  rw [documentGetHTML_hom, documentGetHTML_hom]

/-- C10: the quote-escaping loop terminates: each replacement of a
found double quote by the entity text strictly decreases the number of
double quotes in the working string, and the inserted entity text
itself contains no double quote. -/
theorem escape_loop_terminates (s : List Char) (i : Nat)
    (h : findQuote s = some i) :
    countQuotes (replaceAt s i) < countQuotes s ∧
    countQuotes entityQuot = 0 := by
  have hd := countQuotes_replaceAt s i h
  exact ⟨by omega, countQuotes_entityQuot⟩

theorem escape_loop_terminates_witness :
    findQuote ['a', '"', 'b'] = some 1 ∧
    (countQuotes (replaceAt ['a', '"', 'b'] 1) < countQuotes ['a', '"', 'b'] ∧
      countQuotes entityQuot = 0) :=
  ⟨by decide, escape_loop_terminates ['a', '"', 'b'] 1 (by decide)⟩

end htmlgen
